import Mathlib

/-!
Shallow embedding of `src/main.py` (osm-house-generator): the
`OSMAPIClient` bounded-retry request loop and response parser, and the
`HousesManager` deduplicating record store.

Modelling conventions:
* Machine effects are made explicit: each HTTP attempt's outcome is an
  oracle `Nat → Outcome` indexed by the 0-based loop variable `attempt`;
  `time.sleep` calls are recorded in a trace list; the mutable counters
  `request_count` / `error_count` live in `ClientState`.
* `response.raise_for_status()` raises `requests.exceptions.HTTPError`
  (a subclass of `RequestException`) exactly when the status code is
  `>= 400`; this is modelled by the `400 ≤ status` test taking the same
  handler as a raised `RequestException`.
* JSON payloads are modelled structurally: a `Payload` optionally carries
  an `elements` list (`data['elements']`); an element's possibly-missing
  keys are `Option` fields, and a Python `KeyError` inside the per-element
  `try` corresponds to the `none` case (skip the element).
* Floating-point coordinates are modelled as integer micro-degrees with a
  6-decimal renderer `fmt6`; no claim depends on float rounding.
* File I/O of the record store is modelled as an in-memory list of lines;
  `get_stats` reads an `Option (List String)` where `none` stands for an
  unreadable file.
-/

/-- `data['elements']` entry of an Overpass JSON payload
(`element['type']`, `element['lat']`/`['lon']`, `element['center']`,
`element['id']`, `element.get('tags', {})`). Missing keys are `none`;
`tags` is a key-value mapping (first binding wins, as in a dict). -/
structure Element where
  etype : Option String
  lat : Option Int
  lon : Option Int
  center : Option (Int × Int)
  eid : Option Int
  tags : List (String × String)
deriving DecidableEq, Repr

/-- JSON payload returned by `response.json()`: `elements` is `some` when
the key `'elements'` is present in the dict. -/
structure Payload where
  elements : Option (List Element)
deriving DecidableEq, Repr

/-- Outcome of one HTTP attempt made by `_make_request`:
a response with a status code and JSON body, a raised
`requests.exceptions.RequestException`, or any other raised exception. -/
inductive Outcome where
  | resp (status : Nat) (json : Payload)
  | reqExc
  | otherExc

/-- Mutable counters of `OSMAPIClient` (`self.request_count`,
`self.error_count`). -/
structure ClientState where
  request_count : Nat
  error_count : Nat
deriving DecidableEq, Repr

/-- Result of one `_make_request` call: final counters, the trace of
`time.sleep` durations in order, the number of loop iterations entered
(ghost), the number of times the `status_code == 429` branch executed
(ghost), and the returned value (`none` models Python `None`). -/
structure ReqResult where
  state : ClientState
  sleeps : List Nat
  attempts : Nat
  rateHits : Nat
  result : Option Payload
deriving DecidableEq, Repr

/-- One building record dict as built by `get_residential_buildings` and
consumed by `add_house` (keys `address`, `lat`, `lng`, `osm_id`,
`building_type`, `levels`). Coordinates are integer micro-degrees. -/
structure Building where
  address : String
  lat : Int
  lng : Int
  osm_id : Int
  building_type : String
  levels : String
deriving DecidableEq, Repr

/-- The `for attempt in range(max_retries)` loop body of
`OSMAPIClient._make_request`, line by line:
`request_count += 1`; issue the request (oracle); `raise_for_status()`
raises `HTTPError ⊆ RequestException` when `400 ≤ status`; the
`status_code == 429` branch sleeps `10 * (attempt + 1)` and continues;
otherwise return the JSON. The `RequestException` handler sleeps
`3 * (attempt + 1)` unless `attempt < max_retries - 1` fails; the bare
`Exception` handler breaks. Falling off the loop or breaking increments
`error_count` and returns `None`. `fuel` is the number of remaining loop
iterations (`max_retries - attempt`). -/
def mrAux (oracle : Nat → Outcome) (maxRetries : Nat) :
    Nat → Nat → ClientState → List Nat → Nat → Nat → ReqResult
  | _, 0, st, sleeps, att, rate =>
      ⟨⟨st.request_count, st.error_count + 1⟩, sleeps.reverse, att, rate, none⟩
  | attempt, fuel + 1, st, sleeps, att, rate =>
      let st1 : ClientState := ⟨st.request_count + 1, st.error_count⟩
      match oracle attempt with
      | .reqExc =>
          if attempt < maxRetries - 1 then
            mrAux oracle maxRetries (attempt + 1) fuel st1
              (3 * (attempt + 1) :: sleeps) (att + 1) rate
          else
            mrAux oracle maxRetries (attempt + 1) fuel st1 sleeps (att + 1) rate
      | .otherExc =>
          ⟨⟨st1.request_count, st1.error_count + 1⟩, sleeps.reverse, att + 1, rate, none⟩
      | .resp status json =>
          if 400 ≤ status then
            if attempt < maxRetries - 1 then
              mrAux oracle maxRetries (attempt + 1) fuel st1
                (3 * (attempt + 1) :: sleeps) (att + 1) rate
            else
              mrAux oracle maxRetries (attempt + 1) fuel st1 sleeps (att + 1) rate
          else if status = 429 then
            mrAux oracle maxRetries (attempt + 1) fuel st1
              (10 * (attempt + 1) :: sleeps) (att + 1) (rate + 1)
          else
            ⟨st1, sleeps.reverse, att + 1, rate, some json⟩

/-- `OSMAPIClient._make_request(url, params, data, max_retries)` given the
per-attempt outcomes and the client's counters on entry. -/
def _make_request (oracle : Nat → Outcome) (maxRetries : Nat)
    (st : ClientState) : ReqResult :=
  mrAux oracle maxRetries 0 maxRetries st [] 0 0

/-- `tags.get(k)`: the value bound to key `k`, if present. -/
def tagGet (tags : List (String × String)) (k : String) : Option String :=
  (tags.find? (fun p => p.1 = k)).map (fun p => p.2)

/-- `tags.get(k, d)`. -/
def tagGetD (tags : List (String × String)) (k d : String) : String :=
  (tagGet tags k).getD d

/-- Python truthiness of `tags.get(k)`: `None` and `""` are falsy. -/
def truthy : Option String → Bool
  | none => false
  | some s => !(s == "")

/-- `[tags[k]] if k in tags else []`, one optional address part. -/
def optPart (tags : List (String × String)) (k : String) : List String :=
  match tagGet tags k with
  | some v => [v]
  | none => []

/-- `', '.join(...)` on a list of strings. -/
def joinComma : List String → String
  | [] => ""
  | [s] => s
  | s :: rest => s ++ ", " ++ joinComma rest

/-- The `address_parts` list: street, house number, postcode, city, each
appended when its key is present in `tags`. -/
def partsOf (tags : List (String × String)) : List String :=
  optPart tags "addr:street" ++ optPart tags "addr:housenumber" ++
    optPart tags "addr:postcode" ++ optPart tags "addr:city"

/-- `', '.join(filter(None, address_parts))`. -/
def buildAddress (tags : List (String × String)) : String :=
  joinComma ((partsOf tags).filter (fun s => !(s == "")))

/-- The body of the `for element in data['elements']` loop: returns
`some` built record, or `none` when the element is skipped by a
`continue` or by the per-element `except` (a `KeyError` on a missing
`type`/`lat`/`lon`/`id`). -/
def parseElement (e : Element) : Option Building :=
  if truthy (tagGet e.tags "addr:housenumber") &&
     truthy (tagGet e.tags "addr:street") then
    match e.etype with
    | none => none
    | some ty =>
      match (if ty = "node" then
               match e.lat, e.lon with
               | some la, some lo => some (la, lo)
               | _, _ => none
             else e.center) with
      | none => none
      | some c =>
        match e.eid with
        | none => none
        | some i =>
          some { address := buildAddress e.tags, lat := c.1, lng := c.2,
                 osm_id := i,
                 building_type := tagGetD e.tags "building" "N/A",
                 levels := tagGetD e.tags "building:levels" "N/A" }
  else none

/-- The response-processing part of
`OSMAPIClient.get_residential_buildings`: `if not data or 'elements' not
in data: return []`, then the per-element skip-and-continue loop. -/
def osmParse : Option Payload → List Building
  | none => []
  | some d =>
    match d.elements with
    | none => []
    | some els => els.filterMap parseElement

/-- Result of one `get_residential_buildings` call. -/
structure FetchResult where
  state : ClientState
  buildings : List Building
  sleeps : List Nat
  attempts : Nat
deriving Repr

/-- `OSMAPIClient.get_residential_buildings(city, limit)`: one
`_make_request` call with the default `max_retries = 2`, then parsing. -/
def get_residential_buildings (oracle : Nat → Outcome)
    (st : ClientState) : FetchResult :=
  let r := _make_request oracle 2 st
  ⟨r.state, osmParse r.result, r.sleeps, r.attempts⟩

/-- Decimal digit character, used by the integer renderers. -/
def digitChar (n : Nat) : Char :=
  if n = 0 then '0' else if n = 1 then '1' else if n = 2 then '2'
  else if n = 3 then '3' else if n = 4 then '4' else if n = 5 then '5'
  else if n = 6 then '6' else if n = 7 then '7' else if n = 8 then '8'
  else '9'

/-- Decimal digits of a natural number, most significant first. -/
def natDigits (n : Nat) : List Char :=
  if _h : n < 10 then [digitChar n]
  else natDigits (n / 10) ++ [digitChar (n % 10)]
decreasing_by exact Nat.div_lt_self (by omega) (by omega)

/-- Python `str(i)` for an integer. -/
def intStr (i : Int) : String :=
  (if i < 0 then "-" else "") ++ ⟨natDigits i.natAbs⟩

/-- Python `f"{x:.6f}"` for a coordinate held as integer micro-degrees:
sign, integer part, a dot, and six zero-padded fractional digits. -/
def fmt6 (x : Int) : String :=
  (if x < 0 then "-" else "") ++ ⟨natDigits (x.natAbs / 1000000)⟩ ++ "." ++
    ⟨(natDigits (1000000 + x.natAbs % 1000000)).tail⟩

/-- `address.replace('|', ',')` (a single-character replacement). -/
def cleanAddr (s : String) : String :=
  ⟨s.data.map (fun c => if c = '|' then ',' else c)⟩

/-- Python `line.split(' | ')` over the characters of `line`: leftmost,
non-overlapping occurrences of the three-character delimiter. -/
def splitSep (l : List Char) : List (List Char) :=
  match l with
  | [] => [[]]
  | c :: rest =>
    if c = ' ' ∧ rest.take 2 = ['|', ' '] then
      [] :: splitSep (rest.drop 2)
    else
      (c :: (splitSep rest).headI) :: (splitSep rest).tail
termination_by l.length
decreasing_by
  · simp only [List.length_cons]
    have := List.length_drop 2 rest
    omega
  · simp

/-- State of a `HousesManager`: the in-memory seen-address set and the
lines of `houses_file` (each written line's trailing newline elided, so
`readlines` yields exactly this list). -/
structure ManagerState where
  existing_addresses : List String
  log : List String
deriving DecidableEq, Repr

/-- First header line written by `HousesManager.__init__`. -/
def headerLine : String :=
  "Date | Country | City | Address | Latitude | Longitude | OSM_ID | Building_Type | Levels"

/-- Second header line written by `HousesManager.__init__` (`"=" * 100`). -/
def ruleLine : String := ⟨List.replicate 100 '='⟩

/-- `HousesManager.__init__`: truncates the file, writes the two header
lines, clears the seen-address set. -/
def initManager : ManagerState :=
  { existing_addresses := [], log := [headerLine, ruleLine] }

/-- The record line formatted by `add_house` (without its trailing
newline): timestamp, country, city, sanitized address, coordinates to six
decimals, OSM id, building type and levels, joined by the three-character
delimiter. -/
def logLine (now country city : String) (h : Building) : String :=
  now ++ " | " ++ country ++ " | " ++ city ++ " | " ++ cleanAddr h.address ++
    " | " ++ fmt6 h.lat ++ " | " ++ fmt6 h.lng ++ " | " ++ intStr h.osm_id ++
    " | " ++ h.building_type ++ " | " ++ h.levels

/-- `HousesManager.add_house(country, city, data)`: reject an empty or
already-seen address with no side effect; otherwise append the formatted
line and add the unsanitized address to the seen set. `now` is the
`datetime.now()` timestamp string. -/
def add_house (st : ManagerState) (now country city : String)
    (h : Building) : ManagerState × Bool :=
  if h.address = "" ∨ h.address ∈ st.existing_addresses then
    (st, false)
  else
    ({ existing_addresses := h.address :: st.existing_addresses,
       log := st.log ++ [logLine now country city h] }, true)

/-- `HousesManager.get_stats()`: `max(0, len(lines) - 2)` on the file's
lines, or `0` when the file cannot be read (`none`). -/
def get_stats (fileLines : Option (List String)) : Int :=
  match fileLines with
  | some lines => max 0 ((lines.length : Int) - 2)
  | none => 0

/-- Folds a sequence of `add_house` calls, returning the final state and
the number of calls that returned `true`. -/
def runAdds (st : ManagerState) :
    List (String × String × String × Building) → ManagerState × Nat
  | [] => (st, 0)
  | (now, country, city, h) :: rest =>
    let r := add_house st now country city h
    let r2 := runAdds r.1 rest
    (r2.1, (if r.2 then 1 else 0) + r2.2)

theorem CS_rc (a b : Nat) : (ClientState.mk a b).request_count = a := rfl

theorem CS_ec (a b : Nat) : (ClientState.mk a b).error_count = b := rfl

theorem mrAux_request_count (oracle : Nat → Outcome) (maxRetries : Nat) :
    ∀ fuel attempt st sleeps att rate,
      (mrAux oracle maxRetries attempt fuel st sleeps att rate).state.request_count + att =
        st.request_count + (mrAux oracle maxRetries attempt fuel st sleeps att rate).attempts := by
  intro fuel
  induction fuel with
  | zero => intro attempt st sleeps att rate; rfl
  | succ f ih =>
    intro attempt st sleeps att rate
    simp only [mrAux]
    cases h : oracle attempt <;> simp only [h]
    case reqExc =>
      split
      · have := ih (attempt + 1) ⟨st.request_count + 1, st.error_count⟩
          (3 * (attempt + 1) :: sleeps) (att + 1) rate
        simp only [CS_rc] at this
        omega
      · have := ih (attempt + 1) ⟨st.request_count + 1, st.error_count⟩
          sleeps (att + 1) rate
        simp only [CS_rc] at this
        omega
    case otherExc => omega
    case resp status json =>
      split
      · split
        · have := ih (attempt + 1) ⟨st.request_count + 1, st.error_count⟩
            (3 * (attempt + 1) :: sleeps) (att + 1) rate
          simp only [CS_rc] at this
          omega
        · have := ih (attempt + 1) ⟨st.request_count + 1, st.error_count⟩
            sleeps (att + 1) rate
          simp only [CS_rc] at this
          omega
      · split
        · have := ih (attempt + 1) ⟨st.request_count + 1, st.error_count⟩
            (10 * (attempt + 1) :: sleeps) (att + 1) (rate + 1)
          simp only [CS_rc] at this
          omega
        · show st.request_count + 1 + att = st.request_count + (att + 1)
          omega

theorem mrAux_rateHits (oracle : Nat → Outcome) (maxRetries : Nat) :
    ∀ fuel attempt st sleeps att rate,
      (mrAux oracle maxRetries attempt fuel st sleeps att rate).rateHits = rate := by
  intro fuel
  induction fuel with
  | zero => intro attempt st sleeps att rate; rfl
  | succ f ih =>
    intro attempt st sleeps att rate
    simp only [mrAux]
    cases h : oracle attempt <;> simp only [h]
    case reqExc => split <;> exact ih ..
    case resp status json =>
      split
      · split <;> exact ih ..
      · split
        · next h1 h2 => omega
        · trivial

theorem mrAux_error_count (oracle : Nat → Outcome) (maxRetries : Nat) :
    ∀ fuel attempt st sleeps att rate,
      ((mrAux oracle maxRetries attempt fuel st sleeps att rate).result = none →
        (mrAux oracle maxRetries attempt fuel st sleeps att rate).state.error_count =
          st.error_count + 1) ∧
      (∀ p, (mrAux oracle maxRetries attempt fuel st sleeps att rate).result = some p →
        (mrAux oracle maxRetries attempt fuel st sleeps att rate).state.error_count =
          st.error_count) := by
  intro fuel
  induction fuel with
  | zero =>
    intro attempt st sleeps att rate
    refine ⟨fun _ => rfl, fun p hp => ?_⟩
    simp [mrAux] at hp
  | succ f ih =>
    intro attempt st sleeps att rate
    simp only [mrAux]
    cases h : oracle attempt <;> simp only [h]
    case reqExc => split <;> exact ih ..
    case otherExc =>
      refine ⟨fun _ => by trivial, fun p hp => ?_⟩
      simp at hp
    case resp status json =>
      split
      · split <;> exact ih ..
      · split
        · next h1 h2 => omega
        · refine ⟨fun hn => ?_, fun p hp => by trivial⟩
          simp at hn

theorem range_map_3mul (a d : Nat) :
    (List.range (d + 1)).map (fun i => 3 * (a + 1 + i)) =
      3 * (a + 1) :: (List.range d).map (fun i => 3 * (a + 2 + i)) := by
  rw [List.range_succ_eq_map, List.map_cons, List.map_map]
  refine congrArg₂ _ (by norm_num) (List.map_congr_left ?_)
  intro x hx
  simp only [Function.comp_apply]
  omega

theorem mrAux_transient_peel (oracle : Nat → Outcome) (maxRetries : Nat) :
    ∀ fuel attempt st sleeps att rate k,
      fuel + attempt = maxRetries → attempt ≤ k → k < maxRetries →
      (∀ i, attempt ≤ i → i < k → oracle i = .reqExc) →
      mrAux oracle maxRetries attempt fuel st sleeps att rate =
        mrAux oracle maxRetries k (maxRetries - k)
          ⟨st.request_count + (k - attempt), st.error_count⟩
          (((List.range (k - attempt)).map (fun i => 3 * (attempt + 1 + i))).reverse ++ sleeps)
          (att + (k - attempt)) rate := by
  intro fuel
  induction fuel with
  | zero =>
    intro attempt st sleeps att rate k h1 h2 h3 h4
    exact absurd h3 (by omega)
  | succ f ih =>
    intro attempt st sleeps att rate k h1 h2 h3 h4
    rcases Nat.eq_or_lt_of_le h2 with heq | hlt
    · subst heq
      rw [show maxRetries - attempt = f + 1 from by omega]
      simp
    · have hreq : oracle attempt = Outcome.reqExc :=
        h4 attempt (Nat.le_refl attempt) hlt
      conv_lhs => rw [mrAux]
      rw [hreq]
      rw [if_pos (show attempt < maxRetries - 1 by omega)]
      rw [ih (attempt + 1) ⟨st.request_count + 1, st.error_count⟩
        (3 * (attempt + 1) :: sleeps) (att + 1) rate k (by omega) (by omega) h3
        (fun i hi1 hi2 => h4 i (by omega) hi2)]
      have e1 : (ClientState.mk (st.request_count + 1) st.error_count).request_count +
          (k - (attempt + 1)) = st.request_count + (k - attempt) := by
        simp only [CS_rc]; omega
      have e3 : att + 1 + (k - (attempt + 1)) = att + (k - attempt) := by omega
      have e2 : ((List.range (k - (attempt + 1))).map
            (fun i => 3 * (attempt + 1 + 1 + i))).reverse ++
            (3 * (attempt + 1) :: sleeps) =
          ((List.range (k - attempt)).map
            (fun i => 3 * (attempt + 1 + i))).reverse ++ sleeps := by
        rw [show k - attempt = (k - (attempt + 1)) + 1 from by omega]
        rw [range_map_3mul]
        rw [List.reverse_cons, List.append_assoc, List.singleton_append]
      rw [e1, e3, e2]

theorem make_request_all_transient (oracle : Nat → Outcome) (maxRetries : Nat)
    (st : ClientState) (h : ∀ i, oracle i = Outcome.reqExc) :
    _make_request oracle maxRetries st =
      ⟨⟨st.request_count + maxRetries, st.error_count + 1⟩,
        (List.range (maxRetries - 1)).map (fun i => 3 * (i + 1)),
        maxRetries, 0, none⟩ := by
  cases maxRetries with
  | zero => simp [_make_request, mrAux]
  | succ m =>
    rw [_make_request,
      mrAux_transient_peel oracle (m + 1) (m + 1) 0 st [] 0 0 m
        (by omega) (by omega) (by omega) (fun i _ _ => h i)]
    rw [show m + 1 - m = 1 from by omega]
    rw [mrAux, h m, if_neg (show ¬ m < m + 1 - 1 from by omega)]
    rw [mrAux]
    simp only [CS_rc, List.append_nil, List.reverse_reverse, Nat.sub_zero,
      Nat.add_succ_sub_one]
    simp only [ReqResult.mk.injEq, ClientState.mk.injEq, Nat.add_zero]
    refine ⟨⟨by omega, trivial⟩, List.map_congr_left ?_, by omega, trivial, trivial⟩
    intro x hx
    omega

theorem make_request_prefix_success (oracle : Nat → Outcome) (maxRetries : Nat)
    (st : ClientState) (k status : Nat) (json : Payload)
    (hpre : ∀ i, i < k → oracle i = Outcome.reqExc)
    (hk : oracle k = Outcome.resp status json)
    (h400 : status < 400) (h429 : status ≠ 429) (hkm : k < maxRetries) :
    _make_request oracle maxRetries st =
      ⟨⟨st.request_count + (k + 1), st.error_count⟩,
        (List.range k).map (fun i => 3 * (i + 1)), k + 1, 0, some json⟩ := by
  rw [_make_request,
    mrAux_transient_peel oracle maxRetries maxRetries 0 st [] 0 0 k
      (by omega) (by omega) hkm (fun i _ hi => hpre i hi)]
  rw [show maxRetries - k = (maxRetries - k - 1) + 1 from by omega]
  simp only [mrAux, hk]
  rw [if_neg (show ¬ 400 ≤ status from by omega), if_neg h429]
  simp only [CS_rc, List.append_nil, List.reverse_reverse, Nat.sub_zero,
    ReqResult.mk.injEq, ClientState.mk.injEq, Nat.zero_add]
  refine ⟨⟨by omega, trivial⟩, List.map_congr_left ?_, trivial, trivial, trivial⟩
  intro x hx
  omega

theorem make_request_prefix_abort (oracle : Nat → Outcome) (maxRetries : Nat)
    (st : ClientState) (k : Nat)
    (hpre : ∀ i, i < k → oracle i = Outcome.reqExc)
    (hk : oracle k = Outcome.otherExc) (hkm : k < maxRetries) :
    _make_request oracle maxRetries st =
      ⟨⟨st.request_count + (k + 1), st.error_count + 1⟩,
        (List.range k).map (fun i => 3 * (i + 1)), k + 1, 0, none⟩ := by
  rw [_make_request,
    mrAux_transient_peel oracle maxRetries maxRetries 0 st [] 0 0 k
      (by omega) (by omega) hkm (fun i _ hi => hpre i hi)]
  rw [show maxRetries - k = (maxRetries - k - 1) + 1 from by omega]
  simp only [mrAux, hk]
  simp only [CS_rc, CS_ec, List.append_nil, List.reverse_reverse, Nat.sub_zero,
    ReqResult.mk.injEq, ClientState.mk.injEq, Nat.zero_add]
  refine ⟨⟨by omega, trivial⟩, List.map_congr_left ?_, trivial, trivial, trivial⟩
  intro x hx
  omega

/-- C1: the claim says a 429 response takes the dedicated rate-limit
branch (wait `10 × attemptNumber`, `continue`). In the code,
`raise_for_status()` runs first and raises `HTTPError` (a
`RequestException`) on status 429, so that branch never executes: its
ghost counter `rateHits` is `0` for every oracle, and a client answering
429 on every attempt with `max_retries = 2` takes the network-error
handler instead, sleeping `3 × 1` once and returning `None`. -/
theorem rate_limit_429_branch_dead :
    (∀ (oracle : Nat → Outcome) (maxRetries : Nat) (st : ClientState),
      (_make_request oracle maxRetries st).rateHits = 0) ∧
    _make_request (fun _ => Outcome.resp 429 ⟨none⟩) 2 ⟨0, 0⟩ =
      ⟨⟨2, 1⟩, [3], 2, 0, none⟩ := by
  refine ⟨fun oracle maxRetries st =>
    mrAux_rateHits oracle maxRetries maxRetries 0 st [] 0 0, ?_⟩
  rfl

/-- C9: every iteration of the retry loop increments `request_count` by
exactly one, whatever the attempt's outcome, so a call making `n`
attempts increases the counter by exactly `n`. -/
theorem request_counter_counts_attempts
    (oracle : Nat → Outcome) (maxRetries : Nat) (st : ClientState) :
    (_make_request oracle maxRetries st).state.request_count =
      st.request_count + (_make_request oracle maxRetries st).attempts := by
  have h := mrAux_request_count oracle maxRetries maxRetries 0 st [] 0 0
  simp only [_make_request]
  omega

/-- C4: whenever `_make_request` returns `None` (attempts exhausted or
retrying aborted), `error_count` has been incremented by exactly one and
the parsed result is empty; `get_residential_buildings` turns the `None`
into an empty list. The embedding is a total function, so no exception
escapes the boundary. -/
theorem exhausted_request_empty_result :
    (∀ (oracle : Nat → Outcome) (maxRetries : Nat) (st : ClientState),
      (_make_request oracle maxRetries st).result = none →
      (_make_request oracle maxRetries st).state.error_count = st.error_count + 1 ∧
      osmParse (_make_request oracle maxRetries st).result = []) ∧
    (∀ (oracle : Nat → Outcome) (st : ClientState),
      (_make_request oracle 2 st).result = none →
      (get_residential_buildings oracle st).buildings = []) := by
  constructor
  · intro oracle maxRetries st hnone
    refine ⟨?_, by rw [hnone]; rfl⟩
    exact (mrAux_error_count oracle maxRetries maxRetries 0 st [] 0 0).1 hnone
  · intro oracle st hnone
    simp only [get_residential_buildings]
    rw [hnone]
    rfl

theorem exhausted_request_empty_result_witness :
    (_make_request (fun _ => Outcome.otherExc) 2 ⟨0, 0⟩).result = none ∧
    (_make_request (fun _ => Outcome.otherExc) 2 ⟨0, 0⟩).state.error_count = 1 ∧
    (get_residential_buildings (fun _ => Outcome.otherExc) ⟨0, 0⟩).buildings = [] := by
  refine ⟨rfl, ?_, ?_⟩
  · exact (exhausted_request_empty_result.1 (fun _ => Outcome.otherExc) 2 ⟨0, 0⟩ rfl).1
  · exact exhausted_request_empty_result.2 (fun _ => Outcome.otherExc) ⟨0, 0⟩ rfl

/-- C5: when attempt `k` raises an unclassified exception (after `k`
transient failures), the loop breaks at once: exactly `k + 1` attempts
are made (no further retries even if `k + 1 < max_retries`), the result
degrades to `None`, and `error_count` increments once. -/
theorem unexpected_error_fast_fail
    (oracle : Nat → Outcome) (maxRetries : Nat) (st : ClientState) (k : Nat)
    (hkm : k < maxRetries)
    (hpre : ∀ i, i < k → oracle i = Outcome.reqExc)
    (hk : oracle k = Outcome.otherExc) :
    _make_request oracle maxRetries st =
      ⟨⟨st.request_count + (k + 1), st.error_count + 1⟩,
        (List.range k).map (fun i => 3 * (i + 1)), k + 1, 0, none⟩ :=
  make_request_prefix_abort oracle maxRetries st k hpre hk hkm

theorem unexpected_error_fast_fail_witness :
    _make_request (fun _ => Outcome.otherExc) 5 ⟨0, 0⟩ =
      ⟨⟨1, 1⟩, [], 1, 0, none⟩ :=
  unexpected_error_fast_fail (fun _ => Outcome.otherExc) 5 ⟨0, 0⟩ 0
    (by omega) (fun i hi => absurd hi (by omega)) rfl

/-- C8: a transiently failing attempt is followed by a
`3 × attemptNumber` wait, except after the final attempt. With every
attempt failing transiently the sleep trace is exactly
`[3·1, …, 3·(max_retries−1)]`; with `k` transient failures before a
successful attempt it is `[3·1, …, 3·k]`. -/
theorem transient_backoff_schedule
    (oracle : Nat → Outcome) (maxRetries : Nat) (st : ClientState) :
    ((∀ i, oracle i = Outcome.reqExc) →
      (_make_request oracle maxRetries st).sleeps =
        (List.range (maxRetries - 1)).map (fun i => 3 * (i + 1))) ∧
    (∀ k status json, (∀ i, i < k → oracle i = Outcome.reqExc) →
      oracle k = Outcome.resp status json → status < 400 → status ≠ 429 →
      k < maxRetries →
      (_make_request oracle maxRetries st).sleeps =
        (List.range k).map (fun i => 3 * (i + 1))) := by
  constructor
  · intro hall
    rw [make_request_all_transient oracle maxRetries st hall]
  · intro k status json hpre hk h400 h429 hkm
    rw [make_request_prefix_success oracle maxRetries st k status json
      hpre hk h400 h429 hkm]

theorem transient_backoff_schedule_witness :
    (_make_request (fun _ => Outcome.reqExc) 3 ⟨0, 0⟩).sleeps = [3, 6] :=
  ((transient_backoff_schedule (fun _ => Outcome.reqExc) 3 ⟨0, 0⟩).1
    (fun _ => rfl)).trans (by decide)

/-- C2: `add_house` accepts a record exactly when its address is
non-empty and not yet in the seen-address set, appending exactly one log
line and adding the unsanitized address to the set; a call with an empty
or already-seen address returns `false` and leaves the state (log and
set) unchanged, raising no error (the function is total). Acceptance
puts the address in the set, so re-adding it always hits the first
branch: each distinct address is accepted exactly once per store
lifetime. -/
theorem add_house_dedup
    (st : ManagerState) (now country city : String) (h : Building) :
    (h.address = "" ∨ h.address ∈ st.existing_addresses →
      add_house st now country city h = (st, false)) ∧
    (h.address ≠ "" → h.address ∉ st.existing_addresses →
      add_house st now country city h =
        ({ existing_addresses := h.address :: st.existing_addresses,
           log := st.log ++ [logLine now country city h] }, true)) := by
  constructor
  · intro hc
    simp only [add_house, if_pos hc]
  · intro h1 h2
    simp only [add_house]
    rw [if_neg (not_or.mpr ⟨h1, h2⟩)]

theorem add_house_dedup_witness :
    (add_house initManager "2024-01-01 12:00:00" "Germany" "Berlin"
      ⟨"Main St, 1", 1, 2, 111, "residential", "2"⟩).2 = true ∧
    (add_house (add_house initManager "2024-01-01 12:00:00" "Germany" "Berlin"
        ⟨"Main St, 1", 1, 2, 111, "residential", "2"⟩).1
      "2024-01-01 12:00:01" "Germany" "Berlin"
      ⟨"Main St, 1", 1, 2, 111, "residential", "2"⟩).2 = false := by
  have e1 := (add_house_dedup initManager "2024-01-01 12:00:00" "Germany" "Berlin"
    ⟨"Main St, 1", 1, 2, 111, "residential", "2"⟩).2 (by decide) (by decide)
  constructor
  · rw [e1]
  · have e2 := (add_house_dedup (add_house initManager "2024-01-01 12:00:00" "Germany"
      "Berlin" ⟨"Main St, 1", 1, 2, 111, "residential", "2"⟩).1
      "2024-01-01 12:00:01" "Germany" "Berlin"
      ⟨"Main St, 1", 1, 2, 111, "residential", "2"⟩).1
      (Or.inr (by rw [e1]; exact List.mem_cons_self _ _))
    rw [e2]

theorem runAdds_log_length :
    ∀ (l : List (String × String × String × Building)) (st : ManagerState),
      (runAdds st l).1.log.length = st.log.length + (runAdds st l).2 := by
  intro l
  induction l with
  | nil => intro st; simp [runAdds]
  | cons x rest ih =>
    intro st
    obtain ⟨now, country, city, h⟩ := x
    simp only [runAdds, add_house]
    split
    · simp only [if_neg Bool.false_ne_true, ih st]
      omega
    · rw [ih]
      simp [List.length_append]
      omega

/-- C3: from a fresh store, after any sequence of `add_house` calls of
which `k` returned `true`, `get_stats` on the log reports `k`; in
general it returns `max 0 (lineCount - 2)`, and `0` when the file is
unreadable. -/
theorem get_stats_total_counts_accepted :
    (∀ (l : List (String × String × String × Building)),
      get_stats (some (runAdds initManager l).1.log) =
        ((runAdds initManager l).2 : Int)) ∧
    (∀ lines : List String,
      get_stats (some lines) = max 0 ((lines.length : Int) - 2)) ∧
    get_stats none = 0 := by
  refine ⟨?_, fun lines => rfl, rfl⟩
  intro l
  have hlen := runAdds_log_length l initManager
  have h2 : initManager.log.length = 2 := rfl
  simp only [get_stats, hlen, h2]
  push_cast
  omega

theorem data_append (s t : String) : (s ++ t).data = s.data ++ t.data := rfl

theorem digitChar_ne_pipe (n : Nat) : digitChar n ≠ '|' := by
  unfold digitChar
  split_ifs <;> decide

theorem natDigits_ne_pipe (n : Nat) : ∀ c ∈ natDigits n, c ≠ '|' := by
  induction n using Nat.strong_induction_on with
  | _ n ih =>
    intro c hc
    rw [natDigits] at hc
    split at hc
    · rw [List.mem_singleton] at hc
      exact hc ▸ digitChar_ne_pipe n
    · rw [List.mem_append] at hc
      rcases hc with hc | hc
      · exact ih (n / 10) (Nat.div_lt_self (by omega) (by omega)) c hc
      · rw [List.mem_singleton] at hc
        exact hc ▸ digitChar_ne_pipe (n % 10)

theorem intStr_noPipe (i : Int) : '|' ∉ (intStr i).data := by
  intro hmem
  rw [intStr, data_append] at hmem
  rw [List.mem_append] at hmem
  rcases hmem with hmem | hmem
  · split at hmem <;> simp at hmem
  · exact natDigits_ne_pipe i.natAbs '|' hmem rfl

theorem fmt6_noPipe (x : Int) : '|' ∉ (fmt6 x).data := by
  intro hmem
  rw [fmt6, data_append, data_append, data_append] at hmem
  simp only [List.mem_append] at hmem
  rcases hmem with ((hmem | hmem) | hmem) | hmem
  · split at hmem <;> simp at hmem
  · exact natDigits_ne_pipe _ '|' hmem rfl
  · simp at hmem
  · exact natDigits_ne_pipe _ '|' (List.mem_of_mem_tail hmem) rfl

theorem cleanAddr_noPipe (s : String) : '|' ∉ (cleanAddr s).data := by
  intro hmem
  rw [cleanAddr] at hmem
  rw [show (String.mk (s.data.map (fun c => if c = '|' then ',' else c))).data =
    s.data.map (fun c => if c = '|' then ',' else c) from rfl] at hmem
  rw [List.mem_map] at hmem
  obtain ⟨x, hx, hfx⟩ := hmem
  split at hfx
  · exact absurd hfx (by decide)
  · next hne => exact hne hfx

theorem splitSep_no_pipe : ∀ l : List Char, '|' ∉ l → splitSep l = [l] := by
  intro l
  induction l with
  | nil => intro _; simp [splitSep]
  | cons c rest ih =>
    intro hnp
    rw [splitSep]
    rw [if_neg]
    · rw [ih (fun hm => hnp (List.mem_cons_of_mem c hm))]
      rfl
    · rintro ⟨-, htake⟩
      apply hnp
      cases rest with
      | nil => simp at htake
      | cons r1 rest1 =>
        simp only [List.take_succ_cons, List.cons.injEq] at htake
        exact htake.1 ▸ List.mem_cons_of_mem c (List.mem_cons_self r1 rest1)

theorem splitSep_cons_sep :
    ∀ (f rest : List Char), '|' ∉ f →
      splitSep (f ++ ' ' :: '|' :: ' ' :: rest) = f :: splitSep rest := by
  intro f
  induction f with
  | nil =>
    intro rest _
    rw [List.nil_append, splitSep, if_pos (by simp)]
    rfl
  | cons c f1 ih =>
    intro rest hnp
    rw [List.cons_append, splitSep, if_neg]
    · rw [ih rest (fun hm => hnp (List.mem_cons_of_mem c hm))]
      rfl
    · rintro ⟨-, htake⟩
      cases f1 with
      | nil => simp at htake
      | cons d f2 =>
        simp only [List.cons_append, List.take_succ_cons, List.cons.injEq] at htake
        exact hnp (htake.1 ▸ List.mem_cons_of_mem c (List.mem_cons_self d _))

theorem sep_data : (" | " : String).data = ' ' :: '|' :: ' ' :: [] := rfl

theorem logLine_fields (now country city : String) (h : Building)
    (h1 : '|' ∉ now.data) (h2 : '|' ∉ country.data) (h3 : '|' ∉ city.data)
    (h4 : '|' ∉ h.building_type.data) (h5 : '|' ∉ h.levels.data) :
    splitSep (logLine now country city h).data =
      [now.data, country.data, city.data, (cleanAddr h.address).data,
       (fmt6 h.lat).data, (fmt6 h.lng).data, (intStr h.osm_id).data,
       h.building_type.data, h.levels.data] := by
  simp only [logLine, data_append, sep_data, List.append_assoc, List.cons_append,
    List.nil_append]
  rw [splitSep_cons_sep _ _ h1, splitSep_cons_sep _ _ h2,
    splitSep_cons_sep _ _ h3, splitSep_cons_sep _ _ (cleanAddr_noPipe h.address),
    splitSep_cons_sep _ _ (fmt6_noPipe h.lat),
    splitSep_cons_sep _ _ (fmt6_noPipe h.lng),
    splitSep_cons_sep _ _ (intStr_noPipe h.osm_id),
    splitSep_cons_sep _ _ h4, splitSep_no_pipe _ h5]

set_option maxRecDepth 4000 in
/-- C7 (counterexample): the claim's nine-field guarantee fails as
stated: a record whose address contains a pipe is accepted, but when its
`building_type` also contains the delimiter `" | "` (the code sanitizes
only the address), the stored line splits into 10 fields. -/
theorem pipe_address_field_count_counterexample :
    (add_house initManager "2024-01-01 12:00:00" "Germany" "Berlin"
      ⟨"Main|St 1", 1, 2, 111, "res | x", "3"⟩).2 = true ∧
    (add_house initManager "2024-01-01 12:00:00" "Germany" "Berlin"
      ⟨"Main|St 1", 1, 2, 111, "res | x", "3"⟩).1.log =
      initManager.log ++ [logLine "2024-01-01 12:00:00" "Germany" "Berlin"
        ⟨"Main|St 1", 1, 2, 111, "res | x", "3"⟩] ∧
    (splitSep (logLine "2024-01-01 12:00:00" "Germany" "Berlin"
      ⟨"Main|St 1", 1, 2, 111, "res | x", "3"⟩).data).length = 10 := by
  refine ⟨by decide, ?_, ?_⟩
  · simp [add_house, initManager]
  · simp [logLine, cleanAddr, fmt6, intStr, natDigits, digitChar, splitSep]

/-- C7 (amended): for every accepted record, the stored line carries the
address with every pipe replaced by a comma (field 4), the unsanitized
address goes into the seen-address set, and — provided the timestamp,
country and city labels, buildingType and levels contain no pipe
character — splitting the stored line on `" | "` yields exactly its nine
fields. -/
theorem add_house_sanitizes_address
    (st : ManagerState) (now country city : String) (h : Building)
    (hne : h.address ≠ "") (hnew : h.address ∉ st.existing_addresses)
    (h1 : '|' ∉ now.data) (h2 : '|' ∉ country.data) (h3 : '|' ∉ city.data)
    (h4 : '|' ∉ h.building_type.data) (h5 : '|' ∉ h.levels.data) :
    (add_house st now country city h).2 = true ∧
    (add_house st now country city h).1.log =
      st.log ++ [logLine now country city h] ∧
    h.address ∈ (add_house st now country city h).1.existing_addresses ∧
    (cleanAddr h.address).data =
      h.address.data.map (fun c => if c = '|' then ',' else c) ∧
    '|' ∉ (cleanAddr h.address).data ∧
    splitSep (logLine now country city h).data =
      [now.data, country.data, city.data, (cleanAddr h.address).data,
       (fmt6 h.lat).data, (fmt6 h.lng).data, (intStr h.osm_id).data,
       h.building_type.data, h.levels.data] ∧
    (splitSep (logLine now country city h).data).length = 9 := by
  have e := logLine_fields now country city h h1 h2 h3 h4 h5
  have ha : add_house st now country city h =
      ({ existing_addresses := h.address :: st.existing_addresses,
         log := st.log ++ [logLine now country city h] }, true) := by
    simp only [add_house]
    rw [if_neg (not_or.mpr ⟨hne, hnew⟩)]
  refine ⟨by rw [ha], by rw [ha], by rw [ha]; exact List.mem_cons_self _ _,
    rfl, cleanAddr_noPipe h.address, e, by rw [e]; rfl⟩

theorem add_house_sanitizes_address_witness :
    (add_house initManager "2024-01-01 12:00:00" "Germany" "Berlin"
      ⟨"Main|St 1", 1, 2, 111, "residential", "3"⟩).2 = true ∧
    (cleanAddr "Main|St 1").data = ("Main,St 1" : String).data ∧
    (splitSep (logLine "2024-01-01 12:00:00" "Germany" "Berlin"
      ⟨"Main|St 1", 1, 2, 111, "residential", "3"⟩).data).length = 9 := by
  have hthm := add_house_sanitizes_address initManager "2024-01-01 12:00:00"
    "Germany" "Berlin" ⟨"Main|St 1", 1, 2, 111, "residential", "3"⟩
    (by decide) (by decide) (by decide) (by decide) (by decide) (by decide)
    (by decide)
  refine ⟨hthm.1, by decide, ?_⟩
  rw [hthm.2.2.2.2.2.1]
  rfl

theorem length_filterMap_all_some {α β : Type} (f : α → Option β) :
    ∀ l : List α, (∀ a ∈ l, (f a).isSome = true) →
      (l.filterMap f).length = l.length := by
  intro l
  induction l with
  | nil => intro _; rfl
  | cons x rest ih =>
    intro hall
    rw [List.filterMap_cons]
    cases hx : f x with
    | none =>
      exact absurd (hall x (List.mem_cons_self x rest)) (by simp [hx])
    | some b =>
      simp only [List.length_cons]
      rw [ih (fun a ha => hall a (List.mem_cons_of_mem x ha))]

theorem append_ne_empty_left (a b : String) (ha : a ≠ "") : a ++ b ≠ "" := by
  intro hc
  apply ha
  have hdata := congrArg String.data hc
  rw [data_append] at hdata
  exact String.ext (List.append_eq_nil.mp hdata).1

theorem joinComma_ne_empty (s : String) (rest : List String) (hs : s ≠ "") :
    joinComma (s :: rest) ≠ "" := by
  cases rest with
  | nil => exact hs
  | cons r t => exact append_ne_empty_left _ _ (append_ne_empty_left _ _ hs)

theorem truthy_eq_true (o : Option String) (h : truthy o = true) :
    ∃ s, o = some s ∧ s ≠ "" := by
  cases o with
  | none => exact absurd h (by simp [truthy])
  | some s =>
    refine ⟨s, rfl, ?_⟩
    simpa [truthy] using h

theorem buildAddress_ne_empty (tags : List (String × String))
    (h : truthy (tagGet tags "addr:street") = true) :
    buildAddress tags ≠ "" := by
  obtain ⟨s, hs, hne⟩ := truthy_eq_true _ h
  rw [buildAddress, partsOf]
  simp only [optPart, hs]
  rw [List.append_assoc, List.append_assoc, List.singleton_append,
    List.filter_cons_of_pos (by simp [hne])]
  exact joinComma_ne_empty s _ hne

theorem parseElement_some_address (e : Element) (b : Building)
    (h : parseElement e = some b) :
    b.address = buildAddress e.tags ∧
    truthy (tagGet e.tags "addr:street") = true := by
  rw [parseElement] at h
  split at h
  · next hcond =>
    rw [Bool.and_eq_true] at hcond
    have hstreet := hcond.2
    split at h
    · exact absurd h (by simp)
    · split at h
      · exact absurd h (by simp)
      · split at h
        · exact absurd h (by simp)
        · rw [Option.some.injEq] at h
          exact ⟨by rw [← h], hstreet⟩
  · exact absurd h (by simp)

/-- C10: every record in the sequence returned by the parser of
`get_residential_buildings` has a non-empty address: the guard keeps only
elements whose house-number and street tags are present and non-empty,
and the street is the first `", "`-joined component, so the
empty-address rejection branch of `add_house` is unreachable for
client-produced records — such a record is accepted whenever its address
is not already in the seen set. -/
theorem client_addresses_nonempty
    (p : Option Payload) (b : Building) (hb : b ∈ osmParse p) :
    b.address ≠ "" ∧
    (∀ (st : ManagerState) (now country city : String),
      b.address ∉ st.existing_addresses →
      (add_house st now country city b).2 = true) := by
  have hne : b.address ≠ "" := by
    cases p with
    | none => simp [osmParse] at hb
    | some d =>
      cases hd : d.elements with
      | none => simp [osmParse, hd] at hb
      | some els =>
        simp only [osmParse, hd, List.mem_filterMap] at hb
        obtain ⟨e, _, he⟩ := hb
        obtain ⟨haddr, hstreet⟩ := parseElement_some_address e b he
        rw [haddr]
        exact buildAddress_ne_empty e.tags hstreet
  refine ⟨hne, fun st now country city hnotin => ?_⟩
  simp only [add_house]
  rw [if_neg (not_or.mpr ⟨hne, hnotin⟩)]

theorem client_addresses_nonempty_witness :
    (⟨"Musterstrasse, 12", 52, 13, 1, "N/A", "N/A"⟩ : Building).address ≠ "" ∧
    (add_house initManager "2024-01-01 12:00:00" "Germany" "Berlin"
      ⟨"Musterstrasse, 12", 52, 13, 1, "N/A", "N/A"⟩).2 = true := by
  have h := client_addresses_nonempty
    (some ⟨some [⟨some "node", some 52, some 13, none, some 1,
      [("addr:housenumber", "12"), ("addr:street", "Musterstrasse")]⟩]⟩)
    ⟨"Musterstrasse, 12", 52, 13, 1, "N/A", "N/A"⟩ (by decide)
  exact ⟨h.1, h.2 initManager "2024-01-01 12:00:00" "Germany" "Berlin" (by decide)⟩

/-- C6: per-element skip-and-continue parsing: elements lacking a
non-empty house-number or street tag are skipped; point (`node`)
elements use their direct coordinate and non-point elements their
precomputed centroid, all other elements are skipped; a batch with one
malformed element and N well-formed ones yields exactly N records; and
the Berlin scenario (3 elements, 2 carrying house-number+street, 1
missing street) yields exactly the 2 expected records. -/
theorem parse_skip_and_continue :
    (∀ e : Element,
      truthy (tagGet e.tags "addr:housenumber") = false ∨
      truthy (tagGet e.tags "addr:street") = false → parseElement e = none) ∧
    (∀ (e : Element) (la lo i : Int),
      truthy (tagGet e.tags "addr:housenumber") = true →
      truthy (tagGet e.tags "addr:street") = true →
      e.etype = some "node" → e.lat = some la → e.lon = some lo →
      e.eid = some i →
      parseElement e = some ⟨buildAddress e.tags, la, lo, i,
        tagGetD e.tags "building" "N/A",
        tagGetD e.tags "building:levels" "N/A"⟩) ∧
    (∀ (e : Element) (ty : String) (c : Int × Int) (i : Int),
      truthy (tagGet e.tags "addr:housenumber") = true →
      truthy (tagGet e.tags "addr:street") = true →
      e.etype = some ty → ty ≠ "node" → e.center = some c → e.eid = some i →
      parseElement e = some ⟨buildAddress e.tags, c.1, c.2, i,
        tagGetD e.tags "building" "N/A",
        tagGetD e.tags "building:levels" "N/A"⟩) ∧
    (∀ (e : Element) (ty : String),
      e.etype = some ty → ty ≠ "node" → e.center = none →
      parseElement e = none) ∧
    (∀ (pre post : List Element) (bad : Element),
      parseElement bad = none →
      (∀ g ∈ pre ++ post, (parseElement g).isSome = true) →
      (osmParse (some ⟨some (pre ++ bad :: post)⟩)).length =
        (pre ++ post).length) ∧
    osmParse (some ⟨some [
      ⟨some "node", some 52520000, some 13405000, none, some 1001,
        [("addr:housenumber", "12"), ("addr:street", "Musterstrasse"),
         ("addr:postcode", "10115"), ("addr:city", "Berlin"),
         ("building", "residential")]⟩,
      ⟨some "way", none, none, some (52510000, 13400000), some 1002,
        [("addr:housenumber", "7"), ("addr:street", "Beispielweg"),
         ("building", "apartments"), ("building:levels", "4")]⟩,
      ⟨some "node", some 1, some 2, none, some 1003,
        [("addr:housenumber", "9")]⟩]⟩) =
      [⟨"Musterstrasse, 12, 10115, Berlin", 52520000, 13405000, 1001,
        "residential", "N/A"⟩,
       ⟨"Beispielweg, 7", 52510000, 13400000, 1002, "apartments", "4"⟩] := by
  refine ⟨?_, ?_, ?_, ?_, ?_, by decide⟩
  · intro e hc
    rcases hc with hc | hc <;> simp [parseElement, hc]
  · intro e la lo i hhn hst hty hla hlo hid
    simp [parseElement, hhn, hst, hty, hla, hlo, hid]
  · intro e ty c i hhn hst hty htyne hc hid
    simp [parseElement, hhn, hst, hty, htyne, hc, hid]
  · intro e ty hty htyne hc
    simp [parseElement, hty, htyne, hc]
  · intro pre post bad hbad hall
    simp only [osmParse]
    rw [List.filterMap_append, List.filterMap_cons_none hbad,
      List.length_append,
      length_filterMap_all_some _ pre
        (fun a ha => hall a (List.mem_append_left _ ha)),
      length_filterMap_all_some _ post
        (fun a ha => hall a (List.mem_append_right _ ha)),
      List.length_append]

theorem parse_skip_and_continue_witness :
    (osmParse (some ⟨some [
      ⟨some "node", some 1, some 2, none, some 10,
        [("addr:housenumber", "3"), ("addr:street", "A St")]⟩,
      ⟨none, none, none, none, none, []⟩]⟩)).length = 1 :=
  parse_skip_and_continue.2.2.2.2.1
    [⟨some "node", some 1, some 2, none, some 10,
      [("addr:housenumber", "3"), ("addr:street", "A St")]⟩]
    [] ⟨none, none, none, none, none, []⟩ (by decide) (by decide)
